import Mathlib

/-!
Verification of the kindle book extraction and transcription pipeline.

The definitions below are shallow embeddings of the program's source:
- the transcription pipeline and its helpers (`calculateBackoffDelay`,
  `isRetryableError`, the idempotency filter and the merge-and-sort write),
- the extraction resume logic, the TOC classifier `parseTocItems`, the
  page-advance loops, the end-of-run verification summary,
- `sanitizeDirname` from the utility module.

JavaScript strings are modelled as `String`/`List Char`; machine numbers as
`Nat`/`Int`; the float ratio test `page / total >= 0.9` and the backoff delays
are modelled exactly over `ℚ`; fallible steps are `Option`/`Except`.
-/

set_option maxRecDepth 8000

namespace KindleExport

/-! ## Character and digit helpers -/

/-- Numeric value of a decimal digit run, as `Number.parseInt(s, 10)` computes
it on an all-digit string (leading zeros ignored). -/
def digitsToNat (cs : List Char) : Nat :=
  cs.foldl (fun n c => n * 10 + (c.toNat - 48)) 0

/-- True when the list is nonempty and consists of decimal digits only. -/
def allDigits (cs : List Char) : Bool :=
  !cs.isEmpty && cs.all Char.isDigit

/-! ## Content chunks and the transcription pipeline

Source: the transcription script.  A `ContentChunk` is
`{index, page, text, screenshot}`; `content.json` is an array of chunks. -/

structure ContentChunk where
  index : Int
  page : Int
  text : String
  screenshot : String
  deriving DecidableEq, Repr

/-- The comparator `(a, b) => a.index - b.index || a.page - b.page` used with
`Array.prototype.sort`, read as the "compares less or equal" relation. -/
def chunkLe (a b : ContentChunk) : Prop :=
  a.index < b.index ∨ (a.index = b.index ∧ a.page ≤ b.page)

instance : DecidableRel chunkLe := fun a b => by
  unfold chunkLe; infer_instance

instance : IsTotal ContentChunk chunkLe :=
  ⟨fun a b => by unfold chunkLe; omega⟩

instance : IsTrans ContentChunk chunkLe :=
  ⟨fun a b c => by unfold chunkLe; omega⟩

/-- `[...chunks].sort((a, b) => a.index - b.index || a.page - b.page)`:
`Array.prototype.sort` is a stable sort, embedded as the (unique) stable sort
by ascending `(index, page)`. -/
def sortChunks (cs : List ContentChunk) : List ContentChunk :=
  cs.insertionSort chunkLe

/-- `new Set(existingContent.map((c) => c.screenshot))`. -/
def processedScreenshots (existing : List ContentChunk) : List String :=
  existing.map ContentChunk.screenshot

/-- `pageScreenshots.filter((s) => !processedScreenshots.has(s))`:
the idempotency filter selecting the work set. -/
def screenshotsToProcess (pageScreenshots : List String)
    (existing : List ContentChunk) : List String :=
  pageScreenshots.filter (fun s => !(processedScreenshots existing).contains s)

/-- The filename regex of the transcription script,
`(?:^|\/)\d*-?(\d+)-(\d+)\.png$`, compiled by hand for the part left of the
final `-<digits>.png`: on an all-digit segment the backtracking engine binds
the first group to the last digit only (`\d*` gives back exactly one digit);
on a `<digits>*-<digits>+` segment it binds the first group to the digits
after the dash. Anything else does not match. -/
def matchIdxPart (A : List Char) : Option Nat :=
  if allDigits A then
    (A.getLast?).map (fun c => c.toNat - 48)
  else
    match A.splitOn '-' with
    | [d1, d2] =>
      if d1.all Char.isDigit && allDigits d2 then some (digitsToNat d2)
      else none
    | _ => none

/-- `screenshot.match(/(?:^|\/)\d*-?(\d+)-(\d+)\.png$/)` followed by
`parseInt` on both groups: the path must end in `-<digits>.png`; the second
group is that maximal digit run; the first group is matched inside the
segment after the last `/` (earlier anchor positions always fail because the
candidate would contain a `/`). Returns `(index, page)`. -/
def parseScreenshotIndexPage (s : String) : Option (Nat × Nat) :=
  match s.toList.reverse with
  | 'g' :: 'n' :: 'p' :: '.' :: rest =>
    let d2rev := rest.takeWhile Char.isDigit
    if d2rev.isEmpty then none
    else
      match rest.drop d2rev.length with
      | '-' :: prerev =>
        let A := (prerev.takeWhile (fun c => c ≠ '/')).reverse
        (matchIdxPart A).map (fun i => (i, digitsToNat d2rev.reverse))
      | _ => none
  | _ => none

/-- One unit of the bounded-concurrency dispatch: parse the `(index, page)`
pair out of the filename (the `assert` on a failed match throws outside any
catch, aborting the whole run), then consult the transcription capability;
a unit whose retries were exhausted is logged and yields no chunk, which the
caller filters out.  `oracle s` is the final outcome of the per-artifact
retry loop for screenshot `s`: `some text` on success, `none` on give-up. -/
def transcribeAll (oracle : String → Option String) :
    List String → Except String (List ContentChunk)
  | [] => .ok []
  | s :: rest =>
    match parseScreenshotIndexPage s with
    | none => .error ("invalid screenshot filename: " ++ s)
    | some ip =>
      match transcribeAll oracle rest with
      | .error e => .error e
      | .ok tail =>
        match oracle s with
        | some text => .ok ({ index := ip.1, page := ip.2, text := text,
                              screenshot := s } :: tail)
        | none => .ok tail

/-- The transcription run: compute the work set; when it is empty, rewrite
the manifest as the existing chunks resorted and stop; otherwise transcribe
the work set, concatenate `existing` with the new chunks, sort by
`(index, page)` and write that as the new manifest.  The returned list is the
content of `content.json` after the run. -/
def runTranscription (oracle : String → Option String)
    (pageScreenshots : List String) (existing : List ContentChunk) :
    Except String (List ContentChunk) :=
  let toProcess := screenshotsToProcess pageScreenshots existing
  if toProcess.isEmpty then
    .ok (sortChunks existing)
  else
    match transcribeAll oracle toProcess with
    | .error e => .error e
    | .ok newChunks => .ok (sortChunks (existing ++ newChunks))

/-! ## Extraction resume logic

Source: the extraction script's resume block: load `metadata.json` pages,
list the pages directory, parse `^(\d+)-(\d+)\.png$` filenames, and derive
the page list to keep and the page to resume from. -/

/-- `f.endsWith('.png')`. -/
def endsWithPng (f : String) : Bool :=
  match f.toList.reverse with
  | 'g' :: 'n' :: 'p' :: '.' :: _ => true
  | _ => false

/-- `f.match(/^(\d+)-(\d+)\.png$/)` followed by `parseInt` on the second
group, with `0` when the filename does not match: the whole name must be a
nonempty digit run, one dash, a nonempty digit run, and `.png`. -/
def parseArtifactPage (f : String) : Nat :=
  match f.toList.reverse with
  | 'g' :: 'n' :: 'p' :: '.' :: rev =>
    match rev.reverse.splitOn '-' with
    | [d1, d2] => if allDigits d1 && allDigits d2 then digitsToNat d2 else 0
    | _ => 0
  | _ => 0

/-- `pngFiles.map(parse page).filter((p) => p > 0)`. -/
def pageNumbersOf (pngFiles : List String) : List Nat :=
  (pngFiles.map parseArtifactPage).filter (fun p => 0 < p)

/-- `lastExtractedPage`: `Math.max(...pageNumbers)` when any filename parses
to a positive page, `0` otherwise. -/
def lastExtractedPage (pngFiles : List String) : Nat :=
  (pageNumbersOf pngFiles).foldl max 0

/-- The resume computation of the extraction script, generic in the type of
manifest page entries (only their count and the decision to keep or discard
them matter here): filter the directory listing to `.png` files, reconcile
the manifest page count with the artifact count, discard the manifest page
list when the artifacts outnumber it, and derive the start page.  Returns
`(pages kept, startPage)`; `startPage` stays `1` when nothing was
extracted. -/
def resumeComputation {α : Type} (pages : List α) (screenshotFiles : List String) :
    List α × Nat :=
  let pngFiles := screenshotFiles.filter endsWithPng
  let actualScreenshots := pngFiles.length
  let lastPage := lastExtractedPage pngFiles
  let extractedPages := max pages.length actualScreenshots
  if 0 < extractedPages then
    (if pages.length < actualScreenshots then ([] : List α) else pages,
     if 0 < lastPage then lastPage + 1 else extractedPages + 1)
  else (pages, 1)

/-! ## Manifest reading (JSON) and corruption handling

`JSON.parse` is embedded as a recursive-descent parser over the characters of
the document into a small JSON value type (numbers restricted to integers,
which is all the manifests contain; any other number shape is rejected, which
only widens the set of inputs treated as malformed and never affects the
well-formed or clearly-malformed inputs reasoned about below). -/

inductive Json where
  | null
  | bool (b : Bool)
  | num (n : Int)
  | str (s : String)
  | arr (elems : List Json)
  | obj (fields : List (String × Json))
  deriving Repr

/-- JSON insignificant whitespace. -/
def isJsonWs (c : Char) : Bool :=
  c == ' ' || c == '\t' || c == '\n' || c == '\r'

/-- Drop leading JSON whitespace. -/
def skipWs (cs : List Char) : List Char :=
  cs.dropWhile isJsonWs

/-- Parse a literal keyword such as `null`, `true`, `false`. -/
def parseKeyword (kw : List Char) (cs : List Char) : Option (List Char) :=
  if kw.isPrefixOf cs then some (cs.drop kw.length) else none

/-- Parse a JSON string body after the opening quote; escapes limited to the
forms the manifests use. -/
def parseStringBody : Nat → List Char → Option (List Char × List Char)
  | 0, _ => none
  | _, [] => none
  | fuel + 1, c :: rest =>
    if c == '"' then some ([], rest)
    else if c == '\\' then
      match rest with
      | [] => none
      | e :: rest2 =>
        match parseStringBody fuel rest2 with
        | some (body, rem) =>
          let decoded : Char :=
            if e == 'n' then '\n' else if e == 't' then '\t'
            else if e == 'r' then '\r' else e
          some (decoded :: body, rem)
        | none => none
    else
      match parseStringBody fuel rest with
      | some (body, rem) => some (c :: body, rem)
      | none => none

/-- Parse an integer JSON number (optional minus sign, digit run). -/
def parseNumber (cs : List Char) : Option (Int × List Char) :=
  match cs with
  | '-' :: rest =>
    let ds := rest.takeWhile Char.isDigit
    if ds.isEmpty then none
    else some (-(digitsToNat ds : Int), rest.drop ds.length)
  | _ =>
    let ds := cs.takeWhile Char.isDigit
    if ds.isEmpty then none
    else some ((digitsToNat ds : Int), cs.drop ds.length)

mutual

/-- Parse one JSON value from the head of the input. -/
def parseValue : Nat → List Char → Option (Json × List Char)
  | 0, _ => none
  | fuel + 1, cs =>
    match skipWs cs with
    | [] => none
    | c :: rest =>
      if c == 'n' then
        (parseKeyword ['u', 'l', 'l'] rest).map (fun r => (Json.null, r))
      else if c == 't' then
        (parseKeyword ['r', 'u', 'e'] rest).map (fun r => (Json.bool true, r))
      else if c == 'f' then
        (parseKeyword ['a', 'l', 's', 'e'] rest).map
          (fun r => (Json.bool false, r))
      else if c == '"' then
        (parseStringBody fuel rest).map
          (fun p => (Json.str (String.mk p.1), p.2))
      else if c == '[' then
        match skipWs rest with
        | ']' :: rem => some (Json.arr [], rem)
        | _ =>
          (parseElements fuel rest).map (fun p => (Json.arr p.1, p.2))
      else if c == '{' then
        match skipWs rest with
        | '}' :: rem => some (Json.obj [], rem)
        | _ =>
          (parseMembers fuel rest).map (fun p => (Json.obj p.1, p.2))
      else
        (parseNumber (c :: rest)).map (fun p => (Json.num p.1, p.2))

/-- Parse a nonempty comma-separated list of array elements and the
closing bracket. -/
def parseElements : Nat → List Char → Option (List Json × List Char)
  | 0, _ => none
  | fuel + 1, cs =>
    match parseValue fuel cs with
    | none => none
    | some (v, rem) =>
      match skipWs rem with
      | ',' :: rem2 =>
        (parseElements fuel rem2).map (fun p => (v :: p.1, p.2))
      | ']' :: rem2 => some ([v], rem2)
      | _ => none

/-- Parse a nonempty comma-separated list of object members and the
closing brace. -/
def parseMembers : Nat → List Char → Option (List (String × Json) × List Char)
  | 0, _ => none
  | fuel + 1, cs =>
    match skipWs cs with
    | '"' :: rest =>
      match parseStringBody fuel rest with
      | none => none
      | some (key, rem) =>
        match skipWs rem with
        | ':' :: rem2 =>
          match parseValue fuel rem2 with
          | none => none
          | some (v, rem3) =>
            match skipWs rem3 with
            | ',' :: rem4 =>
              (parseMembers fuel rem4).map
                (fun p => ((String.mk key, v) :: p.1, p.2))
            | '}' :: rem4 => some ([(String.mk key, v)], rem4)
            | _ => none
        | _ => none
    | _ => none

end

/-- `JSON.parse(raw)`: parse one value and require only whitespace after it;
`none` models a thrown `SyntaxError`. -/
def parseJson (raw : String) : Option Json :=
  let cs := raw.toList
  match parseValue (cs.length + 1) cs with
  | some (v, rem) => if (skipWs rem).isEmpty then some v else none
  | none => none

/-- The content-manifest read of the transcription script:
`try { parsed = JSON.parse(raw); if (Array.isArray(parsed)) existingContent
= parsed } catch {}` with `existingContent` initialised to `[]`.  An absent
file (`none`) raises inside the `try` and leaves the default; so does any
parse failure; a parsed non-array also leaves the default. -/
def loadExistingContentJson (file : Option String) : List Json :=
  match file with
  | none => []
  | some raw =>
    match parseJson raw with
    | some (Json.arr xs) => xs
    | _ => []

/-- Field lookup on a parsed JSON object. -/
def jsonField (j : Json) (key : String) : Option Json :=
  match j with
  | Json.obj fields => (fields.find? (fun kv => kv.1 == key)).map (fun kv => kv.2)
  | _ => none

/-- `existingMetadata.pages || []` on the parsed metadata document. -/
def jsonPages (j : Json) : List Json :=
  match jsonField j "pages" with
  | some (Json.arr xs) => xs
  | _ => []

/-- The metadata-manifest consumer of the extraction script's resume block:
absent file skips the block entirely (fresh start), and the surrounding
`try { ... } catch { warn('Could not load existing pages, starting
fresh...') }` turns a `JSON.parse` failure into a fresh start as well;
a parsed document feeds the resume computation. -/
def metadataResume (file : Option String) (screenshotFiles : List String) :
    List Json × Nat :=
  match file with
  | none => ([], 1)
  | some raw =>
    match parseJson raw with
    | none => ([], 1)
    | some j => resumeComputation (jsonPages j) screenshotFiles

/-! ## Page-advance loops

Source: the extraction script's capture loop.  The main advance loop runs
`do { click every 10th poll; read src; break on change; break at the page
boundary; delay } while (true)`; the variant in the skip-existing branch
runs `do { ... } while (retries < 10)` and compares two successive reads.
`clickOk n` tells whether the next-page click at poll `n` succeeds (a throw
is caught and breaks the loop); `readSrc n` is the `src` attribute observed
at poll `n`; `src` is the value observed before the advance;
`pageAtBoundary` is the loop-invariant test `pageNav.page >=
totalContentPages`. -/

inductive AdvanceOutcome where
  | srcChanged
  | pageBoundary
  | navErrorBreak
  | running
  deriving DecidableEq, Repr

/-- The main advance loop, measured in remaining polls of fuel; `.running`
means the loop has not exited after that many polls.  The source loop is
`while (true)`: no poll count ends it. -/
def mainAdvanceLoop (clickOk : Nat → Bool) (readSrc : Nat → Option String)
    (src : Option String) (pageAtBoundary : Bool) :
    Nat → Nat → AdvanceOutcome
  | 0, _ => .running
  | fuel + 1, retries =>
    if retries % 10 == 0 && !clickOk retries then .navErrorBreak
    else
      let newSrc := readSrc retries
      if newSrc ≠ src then .srcChanged
      else if pageAtBoundary then .pageBoundary
      else mainAdvanceLoop clickOk readSrc src pageAtBoundary fuel (retries + 1)

inductive SkipAdvanceOutcome where
  | srcChanged
  | navErrorBreak
  | exhausted
  deriving DecidableEq, Repr

/-- The advance loop of the skip-existing branch: bounded by
`while (retries < 10)`, clicking on every poll with `retries % 10 === 0`
(which is only poll 0 within the bound), and comparing two successive
post-click reads `readA`/`readB` of the image src against each other.
Structural in the remaining iteration budget `10 - retries`. -/
def skipAdvanceLoopAux (clickOk : Nat → Bool)
    (readA readB : Nat → Option String) : Nat → Nat → SkipAdvanceOutcome
  | 0, _ => .exhausted
  | budget + 1, retries =>
    if retries % 10 == 0 && !clickOk retries then .navErrorBreak
    else if readA retries ≠ readB retries then .srcChanged
    else skipAdvanceLoopAux clickOk readA readB budget (retries + 1)

/-- The whole skip-branch advance loop: the `do`-`while` body runs for
`retries = 0, 1, ..., 9` and the loop then exits. -/
def skipAdvanceLoop (clickOk : Nat → Bool)
    (readA readB : Nat → Option String) : SkipAdvanceOutcome :=
  skipAdvanceLoopAux clickOk readA readB 10 0

/-! ## Table-of-contents classification

Source: `parseTocItems` in the extraction script.  TOC items carry the
parsed page navigation; `locator` is dropped (opaque UI handle).  JS object
identity (`item === firstPageTocItem`) is embedded as list-position
identity, every pushed item being a distinct object. -/

structure TocItem where
  title : String
  page : Option Nat
  location : Option Nat
  total : Nat
  deriving DecidableEq, Repr

/-- True when the lowercased title matches one of the back-matter regexes of
`parseTocItems` (each either a substring, exact, prefix or suffix test,
all case-insensitive). -/
def isBackMatterTitle (title : String) : Bool :=
  let t := title.toList.map Char.toLower
  let sub := fun (pat : String) => decide (pat.toList <:+: t)
  let exact := fun (pat : String) => decide (pat.toList = t)
  let pre := fun (pat : String) => pat.toList.isPrefixOf t
  let suf := fun (pat : String) => decide (pat.toList <:+ t)
  sub "acknowledgements" || exact "discover more" || exact "extras" ||
  sub "about the author" || sub "meet the author" || pre "also by " ||
  exact "copyright" || suf " teaser" || suf " preview" ||
  pre "excerpt from" || exact "cast of characters" || exact "timeline" ||
  pre "other titles"

/-- The ratio test `item.page / item.total >= 0.9` (float division embedded
exactly; with `total = 0` JS compares `Infinity`/`NaN`, which also does not
fall below `0.9`, matching `9 * total ≤ 10 * page` there). -/
def ratioOk (item : TocItem) : Bool :=
  match item.page with
  | some p => 9 * item.total ≤ 10 * p
  | none => false

/-- The body of the `afterLastPageTocItem` predicate minus the identity
test: position present with kind page, ratio at least 0.9, back-matter
title. -/
def endPred (item : TocItem) : Bool :=
  item.page.isSome && ratioOk item && isBackMatterTitle item.title

/-- `tocItems.find((item) => item.page !== undefined)`, tracking the list
position of the found item. -/
def findFirstPage : List TocItem → Nat → Option (Nat × TocItem)
  | [], _ => none
  | item :: rest, i =>
    if item.page.isSome then some (i, item)
    else findFirstPage rest (i + 1)

/-- The `afterLastPageTocItem` search: first item, other than the one at
position `s`, passing `endPred`. -/
def findAfterLast (s : Nat) : List TocItem → Nat → Option (Nat × TocItem)
  | [], _ => none
  | item :: rest, i =>
    if i ≠ s && endPred item then some (i, item)
    else findAfterLast s rest (i + 1)

/-- `parseTocItems`: `none` models the fatal
`assert(firstPageTocItem, 'Unable to find first valid page in TOC')`. -/
def parseTocItems (items : List TocItem) :
    Option ((Nat × TocItem) × Option (Nat × TocItem)) :=
  match findFirstPage items 0 with
  | none => none
  | some first => some (first, findAfterLast first.1 items 0)

/-- `totalContentPages = Math.min(parsedToc.afterLastPageTocItem?.page ?
parsedToc.afterLastPageTocItem!.page : total, total)` where `total =
parsedToc.firstPageTocItem.total`; a `page` of `0` is falsy in JS. -/
def totalContentPagesOf (afterLast : Option (Nat × TocItem)) (total : Nat) :
    Nat :=
  min (match afterLast with
       | some e =>
         match e.2.page with
         | some p => if p ≠ 0 then p else total
         | none => total
       | none => total)
      total

/-! ## Retry classification

Source: `isRetryableError` in the transcription script.  An error value is
either absent (falsy) or carries optional `status`, `type` and `code`
fields; a missing numeric field fails both `>=` comparisons, as `undefined`
comparisons do in JS. -/

structure ApiError where
  status : Option Int
  errType : Option String
  code : Option String
  deriving DecidableEq, Repr

/-- `isRetryableError(error)`: checked in source order — falsy error, rate
limit 429, server 5xx, the two fatal OpenAI error types, then the network
error codes. -/
def isRetryableError (error : Option ApiError) : Bool :=
  match error with
  | none => false
  | some e =>
    if e.status == some 429 then true
    else if (match e.status with
             | some s => 500 ≤ s && s < 600
             | none => false) then true
    else if e.errType == some "insufficient_quota" then false
    else if e.errType == some "invalid_request_error" then false
    else if e.code == some "ECONNRESET" || e.code == some "ENOTFOUND" ||
            e.code == some "ECONNREFUSED" then true
    else false

/-! ## Backoff delay

Source: `calculateBackoffDelay(attempt)` in the transcription script, with
the default `baseDelay = 1000` and `maxDelay = 30_000` used at every call
site.  `rand` is the `Math.random()` draw in `[0, 1)`; the arithmetic is
embedded exactly over `ℚ`. -/

def calculateBackoffDelay (attempt : Nat) (rand : ℚ) : ℚ :=
  let exponentialDelay : ℚ := 1000 * 2 ^ (attempt - 1)
  let jitter : ℚ := rand * (1 / 10) * exponentialDelay
  min (exponentialDelay + jitter) 30000

/-! ## End-of-run verification summary

Source: the tail of the extraction script's `main`: build the result
manifest, emit the expected/extracted/missing summary (diagnostic prints
only — no branch aborts), then write `metadata.json` unconditionally. -/

structure PageChunk where
  index : Nat
  page : Nat
  total : Nat
  screenshot : String
  deriving DecidableEq, Repr

structure VerificationSummary where
  expected : Int
  extracted : Int
  missing : Int
  deriving DecidableEq, Repr

structure BookMetadata where
  info : String
  meta : String
  toc : List TocItem
  pages : List PageChunk
  deriving DecidableEq, Repr

/-- `expectedPages = totalContentPages; extractedPages = pages.length;
missingPages = expectedPages - extractedPages`. -/
def verificationSummary (pages : List PageChunk) (totalContentPages : Nat) :
    VerificationSummary :=
  { expected := (totalContentPages : Int)
    extracted := (pages.length : Int)
    missing := (totalContentPages : Int) - (pages.length : Int) }

/-- The run tail: the summary that is emitted and the manifest that is
written, both produced regardless of any shortfall. -/
def runTail (info meta : String) (toc : List TocItem)
    (pages : List PageChunk) (totalContentPages : Nat) :
    VerificationSummary × BookMetadata :=
  (verificationSummary pages totalContentPages,
   { info := info, meta := meta, toc := toc, pages := pages })

/-! ## sanitizeDirname

Source: `sanitizeDirname` in the utility module:
`name.replaceAll(/["*\/:<>?\\|]/g, '').replaceAll(/\s+/g, ' ').trim()
.slice(0, 128)`, embedded over the character sequence. -/

/-- The characters removed by the first `replaceAll`. -/
def isBannedFilenameChar (c : Char) : Bool :=
  c == '"' || c == '*' || c == '/' || c == ':' || c == '<' || c == '>' ||
  c == '?' || c == '\\' || c == '|'

/-- The JS `\s` class and the `trim` whitespace set (ASCII whitespace plus
the Unicode space separators, NBSP, BOM and line separators). -/
def isJsSpace (c : Char) : Bool :=
  c == ' ' || c == '\t' || c == '\n' || c == '\r' || c.toNat == 0x0b ||
  c.toNat == 0x0c || c.toNat == 0xa0 || c.toNat == 0x1680 ||
  (0x2000 ≤ c.toNat && c.toNat ≤ 0x200a) || c.toNat == 0x2028 ||
  c.toNat == 0x2029 || c.toNat == 0x202f || c.toNat == 0x205f ||
  c.toNat == 0x3000 || c.toNat == 0xfeff

/-- `replaceAll(/\s+/g, ' ')`: each maximal whitespace run becomes a single
space.  The flag records whether the previous character was part of a run
already replaced. -/
def collapseWsAux : Bool → List Char → List Char
  | _, [] => []
  | prevWs, c :: rest =>
    if isJsSpace c then
      if prevWs then collapseWsAux true rest
      else ' ' :: collapseWsAux true rest
    else c :: collapseWsAux false rest

def collapseWs (cs : List Char) : List Char :=
  collapseWsAux false cs

/-- `trim()`: drop leading and trailing whitespace. -/
def trimChars (cs : List Char) : List Char :=
  ((cs.dropWhile isJsSpace).reverse.dropWhile isJsSpace).reverse

/-- `sanitizeDirname`. -/
def sanitizeDirname (name : String) : String :=
  String.mk
    ((trimChars (collapseWs (name.toList.filter
      (fun c => !isBannedFilenameChar c)))).take 128)

/-! ## Shared lemmas about the transcription pipeline -/

theorem sortChunks_perm (cs : List ContentChunk) : (sortChunks cs).Perm cs :=
  List.perm_insertionSort chunkLe cs

theorem sortChunks_idempotent (cs : List ContentChunk) :
    sortChunks (sortChunks cs) = sortChunks cs :=
  List.Sorted.insertionSort_eq (List.sorted_insertionSort chunkLe cs)

theorem contains_eq_true_iff_mem {l : List String} {s : String} :
    l.contains s = true ↔ s ∈ l := by
  simp [List.contains, List.elem_iff]

theorem screenshotsToProcess_eq_nil {ps : List String}
    {existing : List ContentChunk}
    (h : ∀ s ∈ ps, s ∈ processedScreenshots existing) :
    screenshotsToProcess ps existing = [] := by
  unfold screenshotsToProcess
  rw [List.filter_eq_nil_iff]
  intro s hs
  have hc : (processedScreenshots existing).contains s = true :=
    contains_eq_true_iff_mem.mpr (h s hs)
  simp only [hc, Bool.not_true, Bool.false_eq_true, not_false_eq_true]

theorem processedScreenshots_sortChunks_mem
    {existing : List ContentChunk} {s : String}
    (h : s ∈ processedScreenshots existing) :
    s ∈ processedScreenshots (sortChunks existing) :=
  (((sortChunks_perm existing).map ContentChunk.screenshot).mem_iff).mpr h

/-- Every chunk produced by the dispatch keeps its source screenshot as its
`screenshot` field, so the produced screenshot list is a sublist of the work
set. -/
theorem transcribeAll_screenshots_sublist (oracle : String → Option String) :
    ∀ (ss : List String) (cs : List ContentChunk),
      transcribeAll oracle ss = .ok cs →
      (cs.map ContentChunk.screenshot).Sublist ss := by
  intro ss
  induction ss with
  | nil =>
    intro cs h
    simp only [transcribeAll, Except.ok.injEq] at h
    simp [← h]
  | cons s rest ih =>
    intro cs h
    simp only [transcribeAll] at h
    cases hp : parseScreenshotIndexPage s with
    | none => rw [hp] at h; exact absurd h (by simp)
    | some ip =>
      rw [hp] at h
      cases ht : transcribeAll oracle rest with
      | error e => rw [ht] at h; exact absurd h (by simp)
      | ok tail =>
        rw [ht] at h
        cases ho : oracle s with
        | some text =>
          rw [ho] at h
          simp only [Except.ok.injEq] at h
          rw [← h]
          simpa using List.Sublist.cons₂ s (ih tail ht)
        | none =>
          rw [ho] at h
          simp only [Except.ok.injEq] at h
          rw [← h]
          exact List.Sublist.cons s (ih tail ht)

/-- C1: if every page-artifact path already appears as the `screenshot` of
some chunk in the existing content manifest, the work set is empty, the run
short-circuits and rewrites the manifest as the existing chunks sorted
ascending by `(index, page)`; running the pipeline again on the manifest so
written (same artifact set, no new artifacts) writes an identical
manifest. -/
theorem C1_transcription_idempotent (oracle : String → Option String)
    (ps : List String) (existing : List ContentChunk)
    (h : ∀ s ∈ ps, s ∈ processedScreenshots existing) :
    screenshotsToProcess ps existing = [] ∧
    runTranscription oracle ps existing = .ok (sortChunks existing) ∧
    runTranscription oracle ps (sortChunks existing) =
      .ok (sortChunks existing) := by
  have h1 : screenshotsToProcess ps existing = [] :=
    screenshotsToProcess_eq_nil h
  have h2 : ∀ s ∈ ps, s ∈ processedScreenshots (sortChunks existing) :=
    fun s hs => processedScreenshots_sortChunks_mem (h s hs)
  have h1' : screenshotsToProcess ps (sortChunks existing) = [] :=
    screenshotsToProcess_eq_nil h2
  refine ⟨h1, ?_, ?_⟩
  · unfold runTranscription
    rw [h1]
    rfl
  · unfold runTranscription
    rw [h1']
    simp [sortChunks_idempotent]

/-- Witness for C1 at a concrete one-artifact manifest. -/
theorem C1_transcription_idempotent_witness :
    runTranscription (fun _ => none) ["pages/3-7.png"]
      [{ index := 3, page := 7, text := "hi", screenshot := "pages/3-7.png" }] =
      .ok (sortChunks
        [{ index := 3, page := 7, text := "hi",
           screenshot := "pages/3-7.png" }]) :=
  (C1_transcription_idempotent (fun _ => none) ["pages/3-7.png"]
    [{ index := 3, page := 7, text := "hi", screenshot := "pages/3-7.png" }]
    (by decide)).2.1

/-- C9: a run that starts from a manifest with at most one chunk per
screenshot path and a duplicate-free artifact list ends with a manifest
that still has at most one chunk per screenshot path. -/
theorem C9_unique_screenshot_invariant (oracle : String → Option String)
    (ps : List String) (existing merged : List ContentChunk)
    (hex : (processedScreenshots existing).Nodup) (hps : ps.Nodup)
    (hrun : runTranscription oracle ps existing = .ok merged) :
    (processedScreenshots merged).Nodup := by
  unfold runTranscription at hrun
  by_cases he : (screenshotsToProcess ps existing).isEmpty
  · rw [if_pos he] at hrun
    simp only [Except.ok.injEq] at hrun
    rw [← hrun]
    exact (((sortChunks_perm existing).map
      ContentChunk.screenshot).nodup_iff).mpr hex
  · rw [if_neg he] at hrun
    cases ht : transcribeAll oracle (screenshotsToProcess ps existing) with
    | error e => rw [ht] at hrun; exact absurd hrun (by simp)
    | ok newChunks =>
      rw [ht] at hrun
      simp only [Except.ok.injEq] at hrun
      rw [← hrun]
      have hperm : (processedScreenshots
          (sortChunks (existing ++ newChunks))).Perm
          (processedScreenshots (existing ++ newChunks)) :=
        (sortChunks_perm (existing ++ newChunks)).map ContentChunk.screenshot
      rw [hperm.nodup_iff]
      unfold processedScreenshots
      rw [List.map_append, List.nodup_append]
      have hsub :
          (newChunks.map ContentChunk.screenshot).Sublist
            (screenshotsToProcess ps existing) :=
        transcribeAll_screenshots_sublist oracle _ _ ht
      have htp : (screenshotsToProcess ps existing).Sublist ps :=
        List.filter_sublist ps
      refine ⟨hex, hsub.nodup (htp.nodup hps), ?_⟩
      intro a ha hb
      have h1 : a ∈ screenshotsToProcess ps existing :=
        hsub.mem hb
      have h2 := (List.mem_filter.mp h1).2
      simp only [Bool.not_eq_true', processedScreenshots] at h2
      have h3 : (List.map ContentChunk.screenshot existing).contains a = true :=
        contains_eq_true_iff_mem.mpr ha
      rw [h3] at h2
      exact absurd h2 (by simp)

/-- Witness for C9 at a concrete run that produces one new chunk. -/
theorem C9_unique_screenshot_invariant_witness :
    (processedScreenshots
      [{ index := 8, page := 9, text := "txt",
         screenshot := "8-9.png" }]).Nodup :=
  C9_unique_screenshot_invariant (fun _ => some "txt") ["8-9.png"] [] _
    (by decide) (by decide) (by rfl)

/-! ## C2: resume-point reconciliation -/

/-- A concrete manifest page entry for the concrete instances below. -/
def demoPageEntry : PageChunk :=
  { index := 0, page := 1, total := 10, screenshot := "0000-0001.png" }

/-- C2: on resume, the start page is the highest page number parsed from the
artifact filenames plus one, or the reconciled count (maximum of manifest
page count and artifact count) plus one when no artifact filename yields a
positive page number; the manifest page list is discarded exactly when the
artifacts outnumber it.  In particular, with five artifacts on disk and only
three stale manifest entries the resume point is page 6, derived from the
artifacts. -/
theorem C2_resume_from_artifacts {α : Type} (pages : List α)
    (files : List String) :
    (resumeComputation pages files).2 =
      (if 0 < lastExtractedPage (files.filter endsWithPng)
       then lastExtractedPage (files.filter endsWithPng) + 1
       else max pages.length (files.filter endsWithPng).length + 1) ∧
    (resumeComputation pages files).1 =
      (if pages.length < (files.filter endsWithPng).length then [] else pages) ∧
    resumeComputation
      [demoPageEntry, demoPageEntry, demoPageEntry]
      ["0000-0001.png", "0001-0002.png", "0002-0003.png", "0003-0004.png",
       "0004-0005.png"] = ([], 6) := by
  refine ⟨?_, ?_, by decide⟩
  · unfold resumeComputation
    by_cases h : 0 < max pages.length (files.filter endsWithPng).length
    · simp [h]
    · have h0 : pages.length = 0 ∧ (files.filter endsWithPng).length = 0 := by
        omega
      have hnil : files.filter endsWithPng = [] :=
        List.length_eq_zero.mp h0.2
      have hlast : lastExtractedPage (files.filter endsWithPng) = 0 := by
        rw [hnil]; rfl
      simp [h, hlast, h0.1, h0.2]
  · unfold resumeComputation
    by_cases h : 0 < max pages.length (files.filter endsWithPng).length
    · simp [h]
    · have h0 : pages.length = 0 ∧ (files.filter endsWithPng).length = 0 := by
        omega
      have : ¬ pages.length < (files.filter endsWithPng).length := by omega
      simp [h, this]

/-! ## C3: manifest corruption handling -/

/-- C3 counterexample: a present but malformed manifest (the one-character
document consisting of an opening brace) is not fatal for either consumer:
the transcription script's catch-all turns it into the empty chunk list and
the extraction script's catch turns it into a fresh start, in both cases
silently discarding prior state instead of aborting. -/
theorem C3_manifest_corruption_counterexample :
    parseJson "\x7b" = none ∧
    loadExistingContentJson (some "\x7b") = [] ∧
    metadataResume (some "\x7b") ["0000-0001.png"] = ([], 1) :=
  ⟨rfl, rfl, rfl⟩

/-- C3 as amended: a present-but-malformed manifest is tolerated exactly
like an absent one — the content-manifest consumer proceeds with the empty
chunk list and the metadata consumer starts fresh (page list empty, start
page 1) — rather than aborting the run. -/
theorem C3_manifest_corruption_amended (raw : String) (files : List String)
    (h : parseJson raw = none) :
    loadExistingContentJson (some raw) = [] ∧
    metadataResume (some raw) files = ([], 1) ∧
    loadExistingContentJson none = [] ∧
    metadataResume none files = ([], 1) := by
  simp [loadExistingContentJson, metadataResume, h]

/-- Witness for the amended C3 at the concrete malformed document `[1,`. -/
theorem C3_manifest_corruption_amended_witness :
    loadExistingContentJson (some "[1,") = [] ∧
    metadataResume (some "[1,") ["0000-0001.png"] = ([], 1) ∧
    loadExistingContentJson none = [] ∧
    metadataResume none ["0000-0001.png"] = ([], 1) :=
  C3_manifest_corruption_amended "[1," ["0000-0001.png"] rfl

/-! ## C4: the page-advance loops -/

/-- C4 counterexample: in the main capture path the advance loop has no
retry bound.  With a page source that accepts every next-page click but
never changes the rendered image src, the loop is still running after 11
polls (beyond the ten-poll bound of the skip-path loop) and still running
after 200 polls. -/
theorem C4_advance_loop_counterexample :
    mainAdvanceLoop (fun _ => true) (fun _ => some "blob:p1")
      (some "blob:p1") false 11 0 = .running ∧
    mainAdvanceLoop (fun _ => true) (fun _ => some "blob:p1")
      (some "blob:p1") false 200 0 = .running :=
  ⟨by decide, by decide⟩

/-- C4 as amended: the main capture-path advance loop re-issues the
next-page click every 10th poll and exits early as soon as the observed src
differs from the pre-advance src (or at the page boundary, or when the
click throws, non-fatally), but it is unbounded: on a source whose src
never changes it is still running after any number of polls.  The bounded
loop (at most 10 polls, hence a single click issue at poll 0) exists only
in the skip-existing branch, and it compares two successive post-advance
reads with each other, so with any read sequence that is pointwise
self-consistent it always exhausts its bound without detecting a change. -/
theorem C4_advance_loops_amended :
    (∀ fuel retries,
      mainAdvanceLoop (fun _ => true) (fun _ => some "same") (some "same")
        false fuel retries = .running) ∧
    (∀ clickOk readSrc src b fuel r, readSrc r ≠ src →
      mainAdvanceLoop clickOk readSrc src b (fuel + 1) r =
        (if r % 10 == 0 && !clickOk r then .navErrorBreak else .srcChanged)) ∧
    (∀ clickOk readA readB, (∀ n, readA n = readB n) →
      skipAdvanceLoop clickOk readA readB =
        (if clickOk 0 then .exhausted else .navErrorBreak)) := by
  refine ⟨?_, ?_, ?_⟩
  · intro fuel
    induction fuel with
    | zero => intro r; rfl
    | succ n ih =>
      intro r
      simp only [mainAdvanceLoop, Bool.not_true, Bool.and_false,
        Bool.false_eq_true, if_false, ne_eq, not_true_eq_false, if_true]
      simp [ih]
  · intro clickOk readSrc src b fuel r hne
    by_cases hc : r % 10 == 0 && !clickOk r
    · simp [mainAdvanceLoop, hc]
    · simp [mainAdvanceLoop, hc, hne]
  · intro clickOk readA readB h
    by_cases hc : clickOk 0
    · simp [skipAdvanceLoop, skipAdvanceLoopAux, hc,
        h 0, h 1, h 2, h 3, h 4, h 5, h 6, h 7, h 8, h 9]
    · simp [skipAdvanceLoop, skipAdvanceLoopAux, hc]

/-- Witness for the amended C4: a source that drops the very first click
read (src differs immediately) exits the main loop with `srcChanged`, and a
self-consistent read sequence exhausts the skip loop. -/
theorem C4_advance_loops_amended_witness :
    mainAdvanceLoop (fun _ => true) (fun _ => some "b") (some "a") false 5 0 =
      .srcChanged ∧
    skipAdvanceLoop (fun _ => true) (fun _ => some "a") (fun _ => some "a") =
      .exhausted := by
  constructor
  · have h := C4_advance_loops_amended.2.1 (fun _ => true)
      (fun _ => some "b") (some "a") false 4 0 (by decide)
    simpa using h
  · have h := C4_advance_loops_amended.2.2 (fun _ => true)
      (fun _ => some "a") (fun _ => some "a") (fun _ => rfl)
    simpa using h

/-! ## C5: TOC classification -/

theorem findFirstPage_eq_none : ∀ (items : List TocItem) (i : Nat),
    findFirstPage items i = none ↔ ∀ it ∈ items, it.page = none := by
  intro items
  induction items with
  | nil => intro i; simp [findFirstPage]
  | cons item rest ih =>
    intro i
    by_cases hp : item.page.isSome
    · obtain ⟨v, hv⟩ := Option.isSome_iff_exists.mp hp
      simp [findFirstPage, hp, hv]
    · have hnone : item.page = none := Option.not_isSome_iff_eq_none.mp hp
      simp [findFirstPage, hp, hnone, ih]

theorem findFirstPage_eq_some : ∀ (items : List TocItem) (i s : Nat)
    (sit : TocItem), findFirstPage items i = some (s, sit) →
    i ≤ s ∧ items[s - i]? = some sit ∧ sit.page.isSome = true ∧
      ∀ j jt, j < s - i → items[j]? = some jt → jt.page = none := by
  intro items
  induction items with
  | nil => intro i s sit h; simp [findFirstPage] at h
  | cons item rest ih =>
    intro i s sit h
    by_cases hp : item.page.isSome
    · rw [findFirstPage, if_pos hp] at h
      obtain ⟨h1, h2⟩ : i = s ∧ item = sit := by
        simpa using h
      subst h1; subst h2
      refine ⟨le_rfl, by simp, hp, ?_⟩
      intro j jt hj
      omega
    · rw [findFirstPage, if_neg hp] at h
      obtain ⟨h1, h2, h3, h4⟩ := ih (i + 1) s sit h
      have hi : i ≤ s := by omega
      refine ⟨hi, ?_, h3, ?_⟩
      · have hs : s - i = (s - (i + 1)) + 1 := by omega
        rw [hs]
        simpa using h2
      · intro j jt hj hjt
        cases j with
        | zero =>
          simp only [List.getElem?_cons_zero, Option.some.injEq] at hjt
          rw [← hjt]
          exact Option.not_isSome_iff_eq_none.mp hp
        | succ k =>
          have hk : k < s - (i + 1) := by omega
          apply h4 k jt hk
          simpa using hjt

theorem findAfterLast_eq_none : ∀ (items : List TocItem) (s i : Nat),
    findAfterLast s items i = none ↔
      ∀ k kt, items[k]? = some kt → i + k = s ∨ endPred kt = false := by
  intro items
  induction items with
  | nil => intro s i; simp [findAfterLast]
  | cons item rest ih =>
    intro s i
    rw [findAfterLast]
    by_cases hc : (decide (i ≠ s) && endPred item) = true
    · rw [if_pos hc]
      simp only [Bool.and_eq_true, decide_eq_true_eq] at hc
      constructor
      · intro h; cases h
      · intro h
        rcases h 0 item (by simp) with h0 | h0
        · omega
        · rw [hc.2] at h0; cases h0
    · rw [if_neg hc]
      rw [ih s (i + 1)]
      have hc2 : i = s ∨ endPred item = false := by
        by_cases hi : i = s
        · exact Or.inl hi
        · cases hpe : endPred item with
          | false => exact Or.inr rfl
          | true => exact absurd (by simp [hi, hpe]) hc
      constructor
      · intro h k kt hk
        cases k with
        | zero =>
          simp only [List.getElem?_cons_zero, Option.some.injEq] at hk
          rw [← hk]
          rcases hc2 with h0 | h0
          · left; omega
          · right; exact h0
        | succ m =>
          rcases h m kt (by simpa using hk) with h0 | h0
          · left; omega
          · right; exact h0
      · intro h k kt hk
        rcases h (k + 1) kt (by simpa using hk) with h0 | h0
        · left; omega
        · right; exact h0

theorem findAfterLast_eq_some : ∀ (items : List TocItem) (s i e : Nat)
    (eit : TocItem), findAfterLast s items i = some (e, eit) →
    i ≤ e ∧ items[e - i]? = some eit ∧ e ≠ s ∧ endPred eit = true ∧
      ∀ k kt, k < e - i → items[k]? = some kt →
        i + k = s ∨ endPred kt = false := by
  intro items
  induction items with
  | nil => intro s i e eit h; simp [findAfterLast] at h
  | cons item rest ih =>
    intro s i e eit h
    rw [findAfterLast] at h
    by_cases hc : (decide (i ≠ s) && endPred item) = true
    · rw [if_pos hc] at h
      simp only [Bool.and_eq_true, decide_eq_true_eq] at hc
      obtain ⟨h1, h2⟩ : i = e ∧ item = eit := by
        simpa using h
      subst h1; subst h2
      refine ⟨le_rfl, by simp, hc.1, hc.2, ?_⟩
      intro k kt hk
      omega
    · rw [if_neg hc] at h
      obtain ⟨h1, h2, h3, h4, h5⟩ := ih s (i + 1) e eit h
      have hi : i ≤ e := by omega
      have hc2 : i = s ∨ endPred item = false := by
        by_cases hi2 : i = s
        · exact Or.inl hi2
        · cases hpe : endPred item with
          | false => exact Or.inr rfl
          | true => exact absurd (by simp [hi2, hpe]) hc
      refine ⟨hi, ?_, h3, h4, ?_⟩
      · have he : e - i = (e - (i + 1)) + 1 := by omega
        rw [he]
        simpa using h2
      · intro k kt hk hkt
        cases k with
        | zero =>
          simp only [List.getElem?_cons_zero, Option.some.injEq] at hkt
          rw [← hkt]
          rcases hc2 with h0 | h0
          · left; omega
          · right; exact h0
        | succ m =>
          have hm : m < e - (i + 1) := by omega
          rcases h5 m kt hm (by simpa using hkt) with h0 | h0
          · left; omega
          · right; exact h0

/-- C5: classification of an ordered TOC item list: the start item is the
first entry whose position is present with kind page, and the run is fatal
(`none`) exactly when no such entry exists; the end item, when present, is
the first entry at a position other than the start whose page is present,
whose page/total ratio is at least 0.9 and whose title matches the fixed
back-matter patterns; when it is absent no other entry qualifies and the
effective last page is the book's reported total. -/
theorem C5_toc_classification (items : List TocItem) :
    (parseTocItems items = none ↔ ∀ it ∈ items, it.page = none) ∧
    (∀ s sit after, parseTocItems items = some ((s, sit), after) →
      items[s]? = some sit ∧ sit.page.isSome = true ∧
      (∀ j jt, j < s → items[j]? = some jt → jt.page = none) ∧
      (after = none →
        (∀ k kt, items[k]? = some kt → k = s ∨ endPred kt = false) ∧
        totalContentPagesOf none sit.total = sit.total) ∧
      (∀ e eit, after = some (e, eit) →
        items[e]? = some eit ∧ e ≠ s ∧ endPred eit = true ∧
        ∀ k kt, k < e → items[k]? = some kt →
          k = s ∨ endPred kt = false)) := by
  constructor
  · have hiff : parseTocItems items = none ↔
        findFirstPage items 0 = none := by
      unfold parseTocItems
      cases hf : findFirstPage items 0 <;> simp
    rw [hiff, findFirstPage_eq_none]
  · intro s sit after hps
    unfold parseTocItems at hps
    cases hf : findFirstPage items 0 with
    | none => rw [hf] at hps; cases hps
    | some first =>
      rw [hf] at hps
      simp only [Option.some.injEq, Prod.mk.injEq] at hps
      obtain ⟨hfirst, hafter⟩ := hps
      subst hfirst
      have hafter2 : findAfterLast s items 0 = after := hafter
      obtain ⟨-, hg, hsome, hbefore⟩ := findFirstPage_eq_some items 0 s sit hf
      simp only [Nat.sub_zero] at hg hbefore
      refine ⟨hg, hsome, fun j jt hj => hbefore j jt (by omega), ?_, ?_⟩
      · intro hnone
        rw [hnone] at hafter2
        have hall := (findAfterLast_eq_none items s 0).mp hafter2
        refine ⟨fun k kt hk => ?_, by simp [totalContentPagesOf]⟩
        rcases hall k kt hk with h0 | h0
        · left; omega
        · right; exact h0
      · intro e eit hsome2
        rw [hsome2] at hafter2
        obtain ⟨-, hg2, hne, hp2, hbefore2⟩ :=
          findAfterLast_eq_some items s 0 e eit hafter2
        simp only [Nat.sub_zero] at hg2 hbefore2
        refine ⟨hg2, hne, hp2, ?_⟩
        intro k kt hk hkt
        rcases hbefore2 k kt hk hkt with h0 | h0
        · left; omega
        · right; exact h0

/-- A TOC holding a heading without page position, the first page-numbered
entry, and a ratio-qualifying back-matter entry. -/
def tocDemoA : TocItem :=
  { title := "A", page := some 5, location := none, total := 100 }

def tocDemoCopyright : TocItem :=
  { title := "Copyright", page := some 96, location := none, total := 100 }

def tocDemo : List TocItem :=
  [{ title := "T", page := none, location := some 3, total := 100 },
   tocDemoA, tocDemoCopyright]

/-- Witness for C5 on the three-entry demo TOC: the classifier returns the
page-numbered entry at position 1 as start and the ratio-qualifying
Copyright entry at position 2 as end. -/
theorem C5_toc_classification_witness :
    tocDemo[2]? = some tocDemoCopyright ∧ (2 : Nat) ≠ 1 ∧
    endPred tocDemoCopyright = true := by
  have h := ((C5_toc_classification tocDemo).2 1 tocDemoA
    (some (2, tocDemoCopyright)) (by decide)).2.2.2.2 2 tocDemoCopyright rfl
  exact ⟨h.1, h.2.1, h.2.2.1⟩

/-! ## C6: retry classification -/

/-- Neither the 429 test nor the 5xx test of the classifier fires for this
error's status. -/
def statusNotRetryable (e : ApiError) : Prop :=
  e.status = none ∨ ∃ s, e.status = some s ∧ s ≠ 429 ∧ (s < 500 ∨ 600 ≤ s)

/-- C6 counterexample: the status tests run before the error-type tests, so
a quota-exhausted error carrying the rate-limit status 429 (the status
OpenAI serves `insufficient_quota` with) is classified retryable, and a
quota-exhausted error carrying a connection-reset code is classified not
retryable — both against the claim, which demands that quota errors are
never retried and that `ECONNRESET` errors always are. -/
theorem C6_retry_classification_counterexample :
    isRetryableError (some ⟨some 429, some "insufficient_quota", none⟩) =
      true ∧
    isRetryableError (some ⟨none, some "insufficient_quota",
      some "ECONNRESET"⟩) = false :=
  ⟨rfl, rfl⟩

/-- C6 as amended: the classifier tests in source order — absent error not
retryable; status 429 retryable; status in 500..599 retryable; otherwise
type `insufficient_quota` or `invalid_request_error` not retryable;
otherwise codes `ECONNRESET`/`ENOTFOUND`/`ECONNREFUSED` retryable;
everything else not retryable.  In particular status 400 with type
`invalid_request_error` is never retried, while the fatal error types
suppress the network-code test, and a retryable status overrides a fatal
type. -/
theorem C6_retry_classification_amended (e : ApiError) :
    isRetryableError none = false ∧
    (e.status = some 429 → isRetryableError (some e) = true) ∧
    (∀ s, e.status = some s → 500 ≤ s → s < 600 →
      isRetryableError (some e) = true) ∧
    (statusNotRetryable e → e.errType = some "insufficient_quota" →
      isRetryableError (some e) = false) ∧
    (statusNotRetryable e → e.errType = some "invalid_request_error" →
      isRetryableError (some e) = false) ∧
    (e.status = some 400 → e.errType = some "invalid_request_error" →
      isRetryableError (some e) = false) ∧
    (statusNotRetryable e → e.errType ≠ some "insufficient_quota" →
      e.errType ≠ some "invalid_request_error" →
      (e.code = some "ECONNRESET" ∨ e.code = some "ENOTFOUND" ∨
        e.code = some "ECONNREFUSED") →
      isRetryableError (some e) = true) ∧
    (statusNotRetryable e → e.errType ≠ some "insufficient_quota" →
      e.errType ≠ some "invalid_request_error" →
      e.code ≠ some "ECONNRESET" → e.code ≠ some "ENOTFOUND" →
      e.code ≠ some "ECONNREFUSED" →
      isRetryableError (some e) = false) := by
  refine ⟨rfl, ?_, ?_, ?_, ?_, ?_, ?_, ?_⟩
  · intro h
    simp [isRetryableError, h]
  · intro s hs h5 h6
    have hne : s ≠ 429 := by omega
    simp [isRetryableError, hs, hne, h5, h6]
  · intro hsn htype
    rcases hsn with hnone | ⟨s, hs, h429, hrange⟩
    · simp [isRetryableError, hnone, htype]
    · have hno : ¬(500 ≤ s ∧ s < 600) := by omega
      simp [isRetryableError, hs, htype, h429]
      omega
  · intro hsn htype
    rcases hsn with hnone | ⟨s, hs, h429, hrange⟩
    · simp [isRetryableError, hnone, htype]
    · simp [isRetryableError, hs, htype, h429]
      omega
  · intro hs htype
    simp [isRetryableError, hs, htype]
  · intro hsn ht1 ht2 hcode
    rcases hsn with hnone | ⟨s, hs, h429, hrange⟩
    · rcases hcode with hc | hc | hc <;>
        simp [isRetryableError, hnone, ht1, ht2, hc]
    · rcases hcode with hc | hc | hc <;>
        simp [isRetryableError, hs, h429, ht1, ht2, hc]
  · intro hsn ht1 ht2 hc1 hc2 hc3
    rcases hsn with hnone | ⟨s, hs, h429, hrange⟩
    · simp [isRetryableError, hnone, ht1, ht2, hc1, hc2, hc3]
    · simp [isRetryableError, hs, h429, ht1, ht2, hc1, hc2, hc3]
      omega

/-- Witness for the amended C6 at concrete errors: status 503 is retryable
and a bare connection-reset error is retryable. -/
theorem C6_retry_classification_amended_witness :
    isRetryableError (some ⟨some 503, none, none⟩) = true ∧
    isRetryableError (some ⟨none, none, some "ECONNRESET"⟩) = true :=
  ⟨(C6_retry_classification_amended ⟨some 503, none, none⟩).2.2.1 503 rfl
      (by decide) (by decide),
   (C6_retry_classification_amended
      ⟨none, none, some "ECONNRESET"⟩).2.2.2.2.2.2.1
      (Or.inl rfl) (by decide) (by decide) (Or.inl rfl)⟩

/-! ## C7: backoff delay -/

/-- C7: for attempts 1..20 and any jitter draw, the computed delay is
`min(base * 2^(attempt-1) * (1 + jitter), cap)` milliseconds with
`jitter = rand/10 ∈ [0, 0.1)`, base 1000 and cap 30000; across any draws
the delays are non-decreasing in the attempt number up to the cap; and no
delay exceeds 33000 ms (indeed none exceeds the 30000 cap). -/
theorem C7_backoff_delay (attempt : Nat) (rand : ℚ)
    (h1 : 1 ≤ attempt) (h2 : attempt ≤ 20) (hr0 : 0 ≤ rand) (hr1 : rand < 1) :
    calculateBackoffDelay attempt rand =
      min (1000 * 2 ^ (attempt - 1) * (1 + rand / 10)) 30000 ∧
    (∀ b rb, attempt < b → 0 ≤ rb → rb < 1 →
      calculateBackoffDelay attempt rand ≤ calculateBackoffDelay b rb) ∧
    calculateBackoffDelay attempt rand ≤ 33000 := by
  have heval : ∀ (a : Nat) (r : ℚ), calculateBackoffDelay a r =
      min (1000 * 2 ^ (a - 1) * (1 + r / 10)) 30000 := by
    intro a r
    have h : (1000 : ℚ) * 2 ^ (a - 1) +
        r * (1 / 10) * (1000 * 2 ^ (a - 1)) =
        1000 * 2 ^ (a - 1) * (1 + r / 10) := by ring
    simp only [calculateBackoffDelay]
    rw [h]
  have hpow_pos : ∀ (a : Nat), (0 : ℚ) < 1000 * 2 ^ (a - 1) := by
    intro a
    positivity
  refine ⟨heval attempt rand, ?_, ?_⟩
  · intro b rb hab hrb0 hrb1
    rw [heval attempt rand, heval b rb]
    have hstep : (1000 : ℚ) * 2 ^ (attempt - 1) * (1 + rand / 10) ≤
        1000 * 2 ^ (b - 1) * (1 + rb / 10) := by
      have hA : (1000 : ℚ) * 2 ^ (attempt - 1) * (1 + rand / 10) ≤
          1000 * 2 ^ (attempt - 1) * 2 := by
        have : (1 + rand / 10 : ℚ) ≤ 2 := by linarith
        nlinarith [hpow_pos attempt]
      have hB : (1000 : ℚ) * 2 ^ (attempt - 1) * 2 ≤ 1000 * 2 ^ (b - 1) := by
        have hexp : 2 ^ (attempt - 1) * 2 = (2 : ℚ) ^ attempt := by
          rw [← pow_succ]
          congr 1
          omega
        rw [mul_assoc, hexp]
        have hle : (2 : ℚ) ^ attempt ≤ 2 ^ (b - 1) := by
          apply pow_le_pow_right₀ (by norm_num)
          omega
        nlinarith
      have hC : (1000 : ℚ) * 2 ^ (b - 1) ≤ 1000 * 2 ^ (b - 1) * (1 + rb / 10) := by
        have : (1 : ℚ) ≤ 1 + rb / 10 := by linarith
        nlinarith [hpow_pos b]
      linarith
    exact min_le_min hstep le_rfl
  · rw [heval attempt rand]
    have : min (1000 * 2 ^ (attempt - 1) * (1 + rand / 10)) (30000 : ℚ) ≤
        30000 := min_le_right _ _
    linarith

/-- Witness for C7 at attempt 3 with a zero jitter draw. -/
theorem C7_backoff_delay_witness :
    calculateBackoffDelay 3 0 =
      min (1000 * 2 ^ (3 - 1) * (1 + 0 / 10)) 30000 ∧
    calculateBackoffDelay 3 0 ≤ 33000 :=
  ⟨(C7_backoff_delay 3 0 (by decide) (by decide) le_rfl zero_lt_one).1,
   (C7_backoff_delay 3 0 (by decide) (by decide) le_rfl zero_lt_one).2.2⟩

/-! ## C8: end-of-run verification -/

/-- C8 counterexample: with a back-matter boundary entry at page 8 of 10,
the computed boundary is 8 and the code reports `expected = 8` — the
boundary page itself, not `endBoundary - 1 = 7` as claimed; on a complete
run that captured the seven pages 1..7 the summary therefore reports one
missing page. -/
theorem C8_verification_counterexample :
    totalContentPagesOf (some (2, ⟨"Copyright", some 8, none, 10⟩)) 10 = 8 ∧
    (verificationSummary (List.replicate 7 demoPageEntry) 8).expected = 8 ∧
    ¬((verificationSummary (List.replicate 7 demoPageEntry) 8).expected
        = 8 - 1) ∧
    (verificationSummary (List.replicate 7 demoPageEntry) 8).missing = 1 :=
  ⟨by decide, by decide, by decide, by decide⟩

/-- C8 as amended: the summary always reports `expected = totalContentPages`
(the computed end boundary itself, the minimum of the back-matter start page
and the reported total), `extracted` as the accumulated page count and
`missing = expected - extracted`; it is emitted for every run, a shortfall
changes nothing, and the terminal manifest with the accumulated pages is
still produced afterwards. -/
theorem C8_verification_amended (info meta : String) (toc : List TocItem)
    (pages : List PageChunk) (tcp : Nat) :
    (runTail info meta toc pages tcp).1.expected = (tcp : Int) ∧
    (runTail info meta toc pages tcp).1.extracted = (pages.length : Int) ∧
    (runTail info meta toc pages tcp).1.missing =
      (tcp : Int) - (pages.length : Int) ∧
    (runTail info meta toc pages tcp).2 =
      { info := info, meta := meta, toc := toc, pages := pages } :=
  ⟨rfl, rfl, rfl, rfl⟩

/-! ## C10: sanitizeDirname -/

/-- No two adjacent characters are both whitespace. -/
def noTwoAdjacentWs (l : List Char) : Prop :=
  List.Chain' (fun a b => ¬(isJsSpace a = true ∧ isJsSpace b = true)) l

theorem collapseWsAux_cons_ws_true {x : Char} (rest : List Char)
    (hx : isJsSpace x = true) :
    collapseWsAux true (x :: rest) = collapseWsAux true rest := by
  simp [collapseWsAux, hx]

theorem collapseWsAux_cons_ws_false {x : Char} (rest : List Char)
    (hx : isJsSpace x = true) :
    collapseWsAux false (x :: rest) = ' ' :: collapseWsAux true rest := by
  simp [collapseWsAux, hx]

theorem collapseWsAux_cons_not_ws {x : Char} (rest : List Char) (b : Bool)
    (hx : isJsSpace x = false) :
    collapseWsAux b (x :: rest) = x :: collapseWsAux false rest := by
  simp [collapseWsAux, hx]

theorem collapseWsAux_mem : ∀ (l : List Char) (b : Bool) (c : Char),
    c ∈ collapseWsAux b l → c ∈ l ∨ c = ' ' := by
  intro l
  induction l with
  | nil => intro b c h; simp [collapseWsAux] at h
  | cons x rest ih =>
    intro b c h
    by_cases hx : isJsSpace x
    · cases b with
      | true =>
        rw [collapseWsAux_cons_ws_true rest hx] at h
        rcases ih true c h with h1 | h1
        · exact Or.inl (List.mem_cons_of_mem x h1)
        · exact Or.inr h1
      | false =>
        rw [collapseWsAux_cons_ws_false rest hx] at h
        rcases List.mem_cons.mp h with h1 | h1
        · exact Or.inr h1
        · rcases ih true c h1 with h2 | h2
          · exact Or.inl (List.mem_cons_of_mem x h2)
          · exact Or.inr h2
    · rw [collapseWsAux_cons_not_ws rest b (by simpa using hx)] at h
      rcases List.mem_cons.mp h with h1 | h1
      · exact Or.inl (h1 ▸ List.mem_cons_self x rest)
      · rcases ih false c h1 with h2 | h2
        · exact Or.inl (List.mem_cons_of_mem x h2)
        · exact Or.inr h2

theorem collapseWsAux_ws_space : ∀ (l : List Char) (b : Bool) (c : Char),
    c ∈ collapseWsAux b l → isJsSpace c = true → c = ' ' := by
  intro l
  induction l with
  | nil => intro b c h; simp [collapseWsAux] at h
  | cons x rest ih =>
    intro b c h hws
    by_cases hx : isJsSpace x
    · cases b with
      | true =>
        rw [collapseWsAux_cons_ws_true rest hx] at h
        exact ih true c h hws
      | false =>
        rw [collapseWsAux_cons_ws_false rest hx] at h
        rcases List.mem_cons.mp h with h1 | h1
        · exact h1
        · exact ih true c h1 hws
    · rw [collapseWsAux_cons_not_ws rest b (by simpa using hx)] at h
      rcases List.mem_cons.mp h with h1 | h1
      · rw [h1] at hws; exact absurd hws (by simpa using hx)
      · exact ih false c h1 hws

theorem collapseWsAux_chain : ∀ (l : List Char) (b : Bool),
    noTwoAdjacentWs (collapseWsAux b l) ∧
    (b = true → ∀ c, (collapseWsAux b l).head? = some c →
      isJsSpace c = false) := by
  intro l
  induction l with
  | nil =>
    intro b
    constructor
    · simp [collapseWsAux, noTwoAdjacentWs]
    · intro _ c h; simp [collapseWsAux] at h
  | cons x rest ih =>
    intro b
    by_cases hx : isJsSpace x
    · cases b with
      | true =>
        rw [collapseWsAux_cons_ws_true rest hx]
        exact ih true
      | false =>
        rw [collapseWsAux_cons_ws_false rest hx]
        constructor
        · rw [noTwoAdjacentWs, List.chain'_cons']
          refine ⟨?_, (ih true).1⟩
          intro y hy
          have hns := (ih true).2 rfl y hy
          intro hcon
          rw [hns] at hcon
          exact absurd hcon.2 (by simp)
        · intro hfalse; cases hfalse
    · rw [collapseWsAux_cons_not_ws rest b (by simpa using hx)]
      constructor
      · rw [noTwoAdjacentWs, List.chain'_cons']
        refine ⟨?_, (ih false).1⟩
        intro y _ hcon
        exact absurd hcon.1 hx
      · intro _ c hc
        simp only [List.head?_cons, Option.some.injEq] at hc
        rw [← hc]
        simpa using hx

theorem head?_dropWhile_not (p : Char → Bool) : ∀ (l : List Char) (c : Char),
    (l.dropWhile p).head? = some c → p c = false := by
  intro l
  induction l with
  | nil => intro c h; cases h
  | cons x rest ih =>
    intro c h
    by_cases hx : p x
    · rw [List.dropWhile_cons_of_pos hx] at h
      exact ih c h
    · rw [List.dropWhile_cons_of_neg hx] at h
      simp only [List.head?_cons, Option.some.injEq] at h
      rw [← h]
      simpa using hx

theorem trimChars_prefix_dropWhile (l : List Char) :
    trimChars l <+: l.dropWhile isJsSpace := by
  unfold trimChars
  have h1 : ((l.dropWhile isJsSpace).reverse.dropWhile isJsSpace) <:+
      (l.dropWhile isJsSpace).reverse := List.dropWhile_suffix isJsSpace
  have h2 := h1.reverse
  rwa [List.reverse_reverse] at h2

theorem trimChars_chain {l : List Char} (h : noTwoAdjacentWs l) :
    noTwoAdjacentWs (trimChars l) :=
  List.Chain'.prefix
    (List.Chain'.suffix h (List.dropWhile_suffix isJsSpace))
    (trimChars_prefix_dropWhile l)

theorem trimChars_mem {l : List Char} {c : Char} (h : c ∈ trimChars l) :
    c ∈ l :=
  ((trimChars_prefix_dropWhile l).sublist.trans
    (List.dropWhile_sublist isJsSpace)).mem h

theorem head?_extend {l m : List Char} {c : Char} (hp : l <+: m)
    (h : l.head? = some c) : m.head? = some c := by
  obtain ⟨t, rfl⟩ := hp
  rw [List.head?_append, h]
  rfl

theorem head?_trimChars {l : List Char} {c : Char}
    (h : (trimChars l).head? = some c) : isJsSpace c = false :=
  head?_dropWhile_not isJsSpace l c
    (head?_extend (trimChars_prefix_dropWhile l) h)

/-- C10: for every input, `sanitizeDirname` returns at most 128 characters,
none of them among `" * / : < > ? \ |`, not beginning with whitespace, with
every whitespace character a single plain space and no two adjacent
whitespace characters. -/
theorem C10_sanitizeDirname (name : String) :
    (sanitizeDirname name).length ≤ 128 ∧
    (∀ c ∈ (sanitizeDirname name).toList, isBannedFilenameChar c = false) ∧
    (∀ c, (sanitizeDirname name).toList.head? = some c →
      isJsSpace c = false) ∧
    noTwoAdjacentWs (sanitizeDirname name).toList ∧
    (∀ c ∈ (sanitizeDirname name).toList, isJsSpace c = true → c = ' ') := by
  have houtlist : (sanitizeDirname name).toList =
      (trimChars (collapseWs (name.toList.filter
        (fun c => !isBannedFilenameChar c)))).take 128 := rfl
  set f := name.toList.filter (fun c => !isBannedFilenameChar c) with hf
  have hmem : ∀ c ∈ (sanitizeDirname name).toList,
      c ∈ collapseWs f := by
    intro c hc
    rw [houtlist] at hc
    exact trimChars_mem ((List.take_prefix 128 _).sublist.mem hc)
  refine ⟨?_, ?_, ?_, ?_, ?_⟩
  · have : (sanitizeDirname name).length =
        ((trimChars (collapseWs f)).take 128).length := rfl
    rw [this]
    exact List.length_take_le 128 _
  · intro c hc
    rcases collapseWsAux_mem f false c (hmem c hc) with h1 | h1
    · have := (List.mem_filter.mp h1).2
      simpa using this
    · rw [h1]; rfl
  · intro c hc
    rw [houtlist] at hc
    have h1 : (trimChars (collapseWs f)).head? = some c := by
      cases hl : trimChars (collapseWs f) with
      | nil => rw [hl] at hc; cases hc
      | cons y t =>
        rw [hl] at hc
        simp only [List.take_succ_cons, List.head?_cons,
          Option.some.injEq] at hc
        simp [hc]
    exact head?_trimChars h1
  · rw [houtlist]
    exact List.Chain'.prefix
      (trimChars_chain (collapseWsAux_chain f false).1)
      (List.take_prefix 128 _)
  · intro c hc hws
    exact collapseWsAux_ws_space f false c (hmem c hc) hws

end KindleExport
